import Mathlib

/-!
Verification of the PBKDF2 implementation `_gnutls_pkcs5_pbkdf2`
(src/lib/x509/pkcs5.c) against its natural-language specification.

The C function is embedded shallowly:

* bytes are `Nat` (values below 256 in practice; XOR is `Nat.xor`);
* the gcrypt keyed-hash provider (`gcry_md_open`, `gcry_md_setkey`,
  `gcry_md_write`, `gcry_md_read`, `gcry_md_close`) together with
  `gnutls_alloca` is modelled by the structure `PRF`: a digest length,
  success flags for `open`/`setkey`/`alloca`, and a function
  `digest : key → data → Option (List Byte)` giving the digest read back
  by `gcry_md_read` (`none` models a NULL pointer result);
* the caller-owned output buffer `DK` is a total function `Nat → Byte`;
  `memcpy (DK + off, src, n)` becomes the functional update `writeBytes`;
* the `int` return value becomes the enumeration `Rc`; in addition the
  result record tracks whether a context was opened and whether
  `gcry_md_close` was reached, so that resource-release claims can be
  stated;
* machine integers are `Nat`; the `unsigned int` width of the `dkLen`
  parameter enters the theorems as an explicit `dkLen < 2 ^ 32` bound.
-/

namespace Pkcs5

abbrev Byte := Nat

/-- The constant `MAX_PRF_BLOCK_LEN` of pkcs5.c line 54 (value 80). -/
def MAX_PRF_BLOCK_LEN : Nat := 80

/-- The return codes of `_gnutls_pkcs5_pbkdf2` (pkcs5.h macros used in pkcs5.c). -/
inductive Rc where
  | PKCS5_OK
  | PKCS5_INVALID_PRF
  | PKCS5_INVALID_ITERATION_COUNT
  | PKCS5_INVALID_DERIVED_KEY_LENGTH
  | PKCS5_DERIVED_KEY_TOO_LONG
deriving DecidableEq, Repr

/-- Model of the gcrypt keyed-hash provider plus `gnutls_alloca`, as used by
pkcs5.c: `hLen` is `gcry_md_get_algo_dlen (PRF)`; `openOk` tells whether
`gcry_md_open` succeeds; `setkeyOk key` whether `gcry_md_setkey` with that key
succeeds; `allocaOk n` whether `gnutls_alloca n` returns non-NULL; and
`digest key data` is what `gcry_md_read` yields after the context was keyed
with `key` and fed `data` (`none` = NULL). -/
structure PRF where
  hLen : Nat
  openOk : Bool
  setkeyOk : List Byte → Bool
  allocaOk : Nat → Bool
  digest : List Byte → List Byte → Option (List Byte)

/-- Model of `memcpy (dst, p, n)` reading `n` bytes from the byte list `p`
(out-of-range reads, impossible in the verified runs, give `0`). -/
def readBytes (p : List Byte) (n : Nat) : List Byte :=
  (List.range n).map (fun k => p.getD k 0)

/-- The loop `for (k = 0; k < n; k++) T[k] ^= U[k];` (pkcs5.c lines 200-201). -/
def xorInto (T U : List Byte) (n : Nat) : List Byte :=
  (List.range n).map (fun k => Nat.xor (T.getD k 0) (U.getD k 0))

/-- The four-byte block-index encoding written into `tmp[Slen..Slen+3]`
(pkcs5.c lines 181-184): `(i & 0xff000000) >> 24`, `(i & 0x00ff0000) >> 16`,
`(i & 0x0000ff00) >> 8`, `(i & 0x000000ff) >> 0`. -/
def INT32_BE (i : Nat) : List Byte :=
  [(i &&& 0xff000000) >>> 24,
   (i &&& 0x00ff0000) >>> 16,
   (i &&& 0x0000ff00) >>> 8,
   (i &&& 0x000000ff) >>> 0]

/-- One pass of the inner loop body (pkcs5.c lines 163-202) at iteration `u`
of block `i`, with accumulator `T` and previous iterate `U`: reset, re-key
with the password (failure → `PKCS5_INVALID_PRF`), feed `salt || INT(i)` when
`u = 1` (allocation failure → `PKCS5_INVALID_PRF`) or the previous iterate
otherwise, read the digest (NULL → `PKCS5_INVALID_PRF`), copy it into `U` and
XOR it into `T`. -/
def pbkdf2Iter (prf : PRF) (P S : List Byte) (i u : Nat) (T U : List Byte) :
    Except Rc (List Byte × List Byte) :=
  if prf.setkeyOk P = false then .error .PKCS5_INVALID_PRF
  else if u = 1 ∧ prf.allocaOk (S.length + 4) = false then .error .PKCS5_INVALID_PRF
  else
    match prf.digest P (if u = 1 then S ++ INT32_BE i else U) with
    | none => .error .PKCS5_INVALID_PRF
    | some p =>
      let U2 := readBytes p prf.hLen
      .ok (xorInto T U2 prf.hLen, U2)

/-- The inner loop `for (u = 1; u <= c; u++)` (pkcs5.c lines 163-202), with
`fuel` iterations left, current iteration counter `u`, accumulator `T` and
iterate buffer `U`. -/
def pbkdf2BlockGo (prf : PRF) (P S : List Byte) (i : Nat) :
    Nat → Nat → List Byte → List Byte → Except Rc (List Byte)
  | 0, _, T, _ => .ok T
  | fuel + 1, u, T, U =>
    match pbkdf2Iter prf P S i u T U with
    | .error e => .error e
    | .ok TU => pbkdf2BlockGo prf P S i fuel (u + 1) TU.1 TU.2

/-- One block `T_i`: `memset (T, 0, hLen)` followed by the inner loop
(pkcs5.c lines 161-202).  The initial content of the (uninitialised)
`U` buffer is irrelevant because iteration `u = 1` never reads it. -/
def pbkdf2Block (prf : PRF) (P S : List Byte) (c i : Nat) : Except Rc (List Byte) :=
  pbkdf2BlockGo prf P S i c 1 (List.replicate prf.hLen 0) (List.replicate prf.hLen 0)

/-- Model of `memcpy (DK + off, bs, bs.length)` on the functional view of the buffer. -/
def writeBytes (DK : Nat → Byte) (off : Nat) (bs : List Byte) : Nat → Byte :=
  fun j => if off ≤ j ∧ j < off + bs.length then bs.getD (j - off) 0 else DK j

/-- The outer loop `for (i = 1; i <= l; i++)` (pkcs5.c lines 159-205): compute
block `i`, abort on error returning the buffer as written so far, else
`memcpy (DK + (i-1)*hLen, T, i == l ? r : hLen)` and continue. -/
def pbkdf2Loop (prf : PRF) (P S : List Byte) (c l r : Nat) :
    Nat → Nat → (Nat → Byte) → Except Rc Unit × (Nat → Byte)
  | 0, _, DK => (.ok (), DK)
  | fuel + 1, i, DK =>
    match pbkdf2Block prf P S c i with
    | .error e => (.error e, DK)
    | .ok T =>
      pbkdf2Loop prf P S c l r fuel (i + 1)
        (writeBytes DK ((i - 1) * prf.hLen) (T.take (if i = l then r else prf.hLen)))

/-- The computation `l = dkLen / hLen; if (dkLen % hLen) l++;` (pkcs5.c lines 108-110). -/
def blockCount (dkLen hLen : Nat) : Nat :=
  dkLen / hLen + (if dkLen % hLen ≠ 0 then 1 else 0)

/-- Result of one call: the returned code, the final content of the
caller-owned output buffer, whether a keyed-hash context was successfully
opened, and whether `gcry_md_close` was executed before returning. -/
structure Pbkdf2Out where
  res : Rc
  DK : Nat → Byte
  opened : Bool
  closed : Bool

/-- Shallow embedding of `_gnutls_pkcs5_pbkdf2` (pkcs5.c lines 56-210).
`P` is the password, `S` the salt, `c` the iteration count, `dkLen` the
requested length, `DK0` the initial content of the caller's output buffer. -/
def gnutls_pkcs5_pbkdf2 (prf : PRF) (P S : List Byte) (c dkLen : Nat)
    (DK0 : Nat → Byte) : Pbkdf2Out :=
  if prf.hLen = 0 ∨ prf.hLen > MAX_PRF_BLOCK_LEN then
    ⟨.PKCS5_INVALID_PRF, DK0, false, false⟩
  else if c = 0 then ⟨.PKCS5_INVALID_ITERATION_COUNT, DK0, false, false⟩
  else if dkLen = 0 then ⟨.PKCS5_INVALID_DERIVED_KEY_LENGTH, DK0, false, false⟩
  else if dkLen > 4294967295 then ⟨.PKCS5_DERIVED_KEY_TOO_LONG, DK0, false, false⟩
  else
    let l := blockCount dkLen prf.hLen
    let r := dkLen - (l - 1) * prf.hLen
    if prf.openOk = false then ⟨.PKCS5_INVALID_PRF, DK0, false, false⟩
    else
      match pbkdf2Loop prf P S c l r l 1 DK0 with
      | (.error e, DK) => ⟨e, DK, true, false⟩
      | (.ok _, DK) => ⟨.PKCS5_OK, DK, true, true⟩

/-! ## Specification-side definitions (from the spec's words, for claim C1) -/

/-- Spec side: the 4-byte big-endian encoding of the block index, "most
significant byte first". -/
def specINT32 (i : Nat) : List Byte :=
  [i / 2 ^ 24 % 256, i / 2 ^ 16 % 256, i / 2 ^ 8 % 256, i % 256]

/-- Spec side: the chained iterates of block `i` for a total PRF `f` keyed
with the password: `specU f S i 0 = U_1 = PRF(password, salt || INT32_BE i)`
and `specU f S i k = U_(k+1) = PRF(password, U_k)`. -/
def specU (f : List Byte → List Byte) (S : List Byte) (i : Nat) : Nat → List Byte
  | 0 => f (S ++ specINT32 i)
  | k + 1 => f (specU f S i k)

/-- Spec side: the byte-wise XOR of the first `c` iterates `U_1 ⊕ ... ⊕ U_c`
of block `i` (an `hLen`-byte block; the all-zero starting point is the XOR
identity). -/
def specT (f : List Byte → List Byte) (S : List Byte) (hLen : Nat) (i : Nat) :
    Nat → List Byte
  | 0 => List.replicate hLen 0
  | c + 1 => List.zipWith Nat.xor (specT f S hLen i c) (specU f S i c)

/-- All PRF-provider operations succeed, and the digests are computed by the
total function `f`, each of length `hLen`. -/
def AllOk (prf : PRF) (P S : List Byte) (f : List Byte → List Byte) : Prop :=
  prf.openOk = true ∧ prf.setkeyOk P = true ∧ prf.allocaOk (S.length + 4) = true ∧
    (∀ d, prf.digest P d = some (f d)) ∧ (∀ d, (f d).length = prf.hLen)

/-! ## Concrete providers used to exercise the theorems -/

/-- A total, always-succeeding 2-byte test PRF (digests depend on the fed
data, so consecutive blocks differ). -/
def wPRF : PRF where
  hLen := 2
  openOk := true
  setkeyOk := fun _ => true
  allocaOk := fun _ => true
  digest := fun _ d => some [d.foldl (fun a b => a + b) 0 % 256, (d.length + 3) % 256]

/-- The digest function of `wPRF`, as a total function. -/
def wf : List Byte → List Byte :=
  fun d => [d.foldl (fun a b => a + b) 0 % 256, (d.length + 3) % 256]

/-- A 1-byte PRF whose keying step always fails, to exercise the mid-loop
`gcry_md_setkey` failure path. -/
def c4prf : PRF where
  hLen := 1
  openOk := true
  setkeyOk := fun _ => false
  allocaOk := fun _ => true
  digest := fun _ _ => some [0]

/-- A 1-byte PRF that digests `salt || INT32_BE 1` (with empty salt)
successfully but returns NULL for every other input, so block 1 succeeds and
block 2 fails. -/
def c5prf : PRF where
  hLen := 1
  openOk := true
  setkeyOk := fun _ => true
  allocaOk := fun _ => true
  digest := fun _ d => if d = [0, 0, 0, 1] then some [7] else none

/-- Initial output-buffer content used with `c5prf`. -/
def c5DK0 : Nat → Byte := fun _ => 42

/-! ## Basic lemmas -/

theorem and_shl_shr (i m s : Nat) : (i &&& (m <<< s)) >>> s = (i >>> s) &&& m := by
  apply Nat.eq_of_testBit_eq
  intro j
  simp [Nat.testBit_shiftRight, Nat.testBit_and, Nat.testBit_shiftLeft,
    Nat.add_sub_cancel_left, Nat.le_add_right]

theorem INT32_BE_eq_specINT32 (i : Nat) : INT32_BE i = specINT32 i := by
  have h24 : (0xff000000 : Nat) = 255 <<< 24 := by norm_num [Nat.shiftLeft_eq]
  have h16 : (0x00ff0000 : Nat) = 255 <<< 16 := by norm_num [Nat.shiftLeft_eq]
  have h8 : (0x0000ff00 : Nat) = 255 <<< 8 := by norm_num [Nat.shiftLeft_eq]
  have h255 : (255 : Nat) = 2 ^ 8 - 1 := by norm_num
  have key : ∀ s : Nat, (i &&& (255 <<< s)) >>> s = i / 2 ^ s % 256 := by
    intro s
    rw [and_shl_shr, h255, Nat.and_pow_two_sub_one_eq_mod, Nat.shiftRight_eq_div_pow]
  have h0 : (i &&& 0x000000ff) >>> 0 = i % 256 := by
    have := key 0
    simpa using this
  simp only [INT32_BE, specINT32, h24, h16, h8, key, h0]

theorem readBytes_length (p : List Byte) (n : Nat) : (readBytes p n).length = n := by
  simp [readBytes]

theorem readBytes_eq_self (p : List Byte) (n : Nat) (h : p.length = n) :
    readBytes p n = p := by
  subst h
  apply List.ext_getElem
  · simp [readBytes]
  · intro k h1 h2
    simp [readBytes, List.getD_eq_getElem?_getD, List.getElem?_eq_getElem h2]

theorem xorInto_length (T U : List Byte) (n : Nat) : (xorInto T U n).length = n := by
  simp [xorInto]

theorem xorInto_eq_zipWith (T U : List Byte) (n : Nat)
    (hT : T.length = n) (hU : U.length = n) :
    xorInto T U n = List.zipWith Nat.xor T U := by
  apply List.ext_getElem
  · simp [xorInto, hT, hU]
  · intro k h1 h2
    have hk : k < n := by simpa [xorInto] using h1
    simp [xorInto, List.getD_eq_getElem?_getD,
      List.getElem?_eq_getElem (hT ▸ hk), List.getElem?_eq_getElem (hU ▸ hk)]

theorem specU_length (f : List Byte → List Byte) (S : List Byte) (i : Nat)
    (hLen : Nat) (hf : ∀ d, (f d).length = hLen) (k : Nat) :
    (specU f S i k).length = hLen := by
  cases k with
  | zero => exact hf _
  | succ k => exact hf _

theorem specT_length (f : List Byte → List Byte) (S : List Byte) (hLen : Nat)
    (i : Nat) (hf : ∀ d, (f d).length = hLen) (c : Nat) :
    (specT f S hLen i c).length = hLen := by
  induction c with
  | zero => simp [specT]
  | succ c ih =>
    simp [specT, List.length_zipWith, ih, specU_length f S i hLen hf c]

/-- Under `AllOk`, one inner-loop pass at iteration `u ≥ 2` consumes the
previous iterate `specU f S i k` (that is, `U_(k+1)`) and produces the next
one, XORed into the accumulator. -/
theorem pbkdf2Iter_ok_succ (prf : PRF) (P S : List Byte)
    (f : List Byte → List Byte) (hAll : AllOk prf P S f)
    (i u : Nat) (hu : u ≠ 1) (T U : List Byte) :
    pbkdf2Iter prf P S i u T U =
      .ok (xorInto T (f U) prf.hLen, f U) := by
  obtain ⟨-, hkey, halloc, hdig, hlen⟩ := hAll
  simp [pbkdf2Iter, hkey, halloc, hu, hdig U, readBytes_eq_self _ _ (hlen U)]

/-- Under `AllOk`, the first inner-loop pass of block `i` feeds
`salt || INT32_BE i` and produces the first iterate `U_1 = specU f S i 0`. -/
theorem pbkdf2Iter_ok_one (prf : PRF) (P S : List Byte)
    (f : List Byte → List Byte) (hAll : AllOk prf P S f) (i : Nat)
    (T U : List Byte) :
    pbkdf2Iter prf P S i 1 T U =
      .ok (xorInto T (specU f S i 0) prf.hLen, specU f S i 0) := by
  obtain ⟨-, hkey, halloc, hdig, hlen⟩ := hAll
  simp [pbkdf2Iter, hkey, halloc, hdig, specU, INT32_BE_eq_specINT32,
    readBytes_eq_self _ _ (hlen _)]

/-- Under `AllOk`, `xorInto` on the accumulator agrees with the
specification's byte-wise XOR, advancing `specT` by one iterate. -/
theorem xorInto_specT (prf : PRF) (P S : List Byte)
    (f : List Byte → List Byte) (hAll : AllOk prf P S f) (i k : Nat) :
    xorInto (specT f S prf.hLen i k) (specU f S i k) prf.hLen =
      specT f S prf.hLen i (k + 1) := by
  obtain ⟨-, -, -, -, hlen⟩ := hAll
  rw [xorInto_eq_zipWith _ _ _ (specT_length f S prf.hLen i hlen k)
    (specU_length f S i prf.hLen hlen k)]
  rfl

/-- Under `AllOk`, the inner loop started at iteration `k + 2` with
accumulator `specT (k+1)` and iterate `specU k` runs to completion and
accumulates `fuel` more iterates. -/
theorem pbkdf2BlockGo_spec (prf : PRF) (P S : List Byte)
    (f : List Byte → List Byte) (hAll : AllOk prf P S f) (i : Nat) :
    ∀ fuel k,
      pbkdf2BlockGo prf P S i fuel (k + 2) (specT f S prf.hLen i (k + 1))
          (specU f S i k) =
        .ok (specT f S prf.hLen i (k + 1 + fuel)) := by
  intro fuel
  induction fuel with
  | zero => intro k; simp [pbkdf2BlockGo]
  | succ fuel ih =>
    intro k
    have hstep := pbkdf2Iter_ok_succ prf P S f hAll i (k + 2) (by omega)
      (specT f S prf.hLen i (k + 1)) (specU f S i k)
    have hU : f (specU f S i k) = specU f S i (k + 1) := rfl
    rw [pbkdf2BlockGo, hstep]
    simp only [hU, xorInto_specT prf P S f hAll i (k + 1)]
    have := ih (k + 1)
    have harith : k + 1 + 1 + fuel = k + 1 + (fuel + 1) := by omega
    rw [show k + 2 + 1 = k + 1 + 2 by omega, this, harith]

/-- Under `AllOk` and `c ≥ 1`, block `i` computes exactly the
specification's XOR of the `c` chained iterates. -/
theorem pbkdf2Block_ok (prf : PRF) (P S : List Byte)
    (f : List Byte → List Byte) (hAll : AllOk prf P S f)
    (c : Nat) (hc : 1 ≤ c) (i : Nat) :
    pbkdf2Block prf P S c i = .ok (specT f S prf.hLen i c) := by
  obtain ⟨c, rfl⟩ : ∃ c', c = c' + 1 := ⟨c - 1, by omega⟩
  unfold pbkdf2Block
  rw [pbkdf2BlockGo, pbkdf2Iter_ok_one prf P S f hAll i]
  have hT0 : xorInto (List.replicate prf.hLen 0) (specU f S i 0) prf.hLen =
      specT f S prf.hLen i 1 := by
    have h0 : (List.replicate prf.hLen (0 : Byte)) = specT f S prf.hLen i 0 := rfl
    rw [h0, xorInto_specT prf P S f hAll i 0]
  simp only [hT0]
  have := pbkdf2BlockGo_spec prf P S f hAll i c 0
  simpa [Nat.add_comm] using this

/-- Every error produced by the inner-loop body is `PKCS5_INVALID_PRF`. -/
theorem pbkdf2Iter_error (prf : PRF) (P S : List Byte) (i u : Nat)
    (T U : List Byte) (e : Rc)
    (h : pbkdf2Iter prf P S i u T U = .error e) : e = .PKCS5_INVALID_PRF := by
  unfold pbkdf2Iter at h
  split at h
  · exact (Except.error.injEq _ _ ▸ h).symm
  · split at h
    · exact (Except.error.injEq _ _ ▸ h).symm
    · split at h
      · exact (Except.error.injEq _ _ ▸ h).symm
      · simp at h

/-- Every error produced by the inner loop is `PKCS5_INVALID_PRF`. -/
theorem pbkdf2BlockGo_error (prf : PRF) (P S : List Byte) (i : Nat) :
    ∀ fuel u T U e, pbkdf2BlockGo prf P S i fuel u T U = .error e →
      e = .PKCS5_INVALID_PRF := by
  intro fuel
  induction fuel with
  | zero => intro u T U e h; simp [pbkdf2BlockGo] at h
  | succ fuel ih =>
    intro u T U e h
    rw [pbkdf2BlockGo] at h
    cases hi : pbkdf2Iter prf P S i u T U with
    | error e' =>
      rw [hi] at h
      cases h
      exact pbkdf2Iter_error prf P S i u T U e hi
    | ok TU =>
      rw [hi] at h
      exact ih _ _ _ _ h

/-- Every error produced by a block computation is `PKCS5_INVALID_PRF`. -/
theorem pbkdf2Block_error (prf : PRF) (P S : List Byte) (c i : Nat) (e : Rc)
    (h : pbkdf2Block prf P S c i = .error e) : e = .PKCS5_INVALID_PRF :=
  pbkdf2BlockGo_error prf P S i c 1 _ _ e h

/-- Every error produced by the outer loop is `PKCS5_INVALID_PRF`. -/
theorem pbkdf2Loop_error (prf : PRF) (P S : List Byte) (c l r : Nat) :
    ∀ fuel i DK e DKout,
      pbkdf2Loop prf P S c l r fuel i DK = (.error e, DKout) →
        e = .PKCS5_INVALID_PRF := by
  intro fuel
  induction fuel with
  | zero => intro i DK e DKout h; simp [pbkdf2Loop] at h
  | succ fuel ih =>
    intro i DK e DKout h
    rw [pbkdf2Loop] at h
    cases hb : pbkdf2Block prf P S c i with
    | error e' =>
      rw [hb] at h
      cases h
      exact pbkdf2Block_error prf P S c i e hb
    | ok T =>
      rw [hb] at h
      exact ih _ _ _ _ h

/-- A successful inner loop always yields an `hLen`-byte accumulator
(started from the `hLen`-byte zero buffer). -/
theorem pbkdf2BlockGo_length (prf : PRF) (P S : List Byte) (i : Nat) :
    ∀ fuel u T U T', T.length = prf.hLen →
      pbkdf2BlockGo prf P S i fuel u T U = .ok T' → T'.length = prf.hLen := by
  intro fuel
  induction fuel with
  | zero =>
    intro u T U T' hT h
    simp only [pbkdf2BlockGo] at h
    cases h
    exact hT
  | succ fuel ih =>
    intro u T U T' hT h
    rw [pbkdf2BlockGo] at h
    cases hi : pbkdf2Iter prf P S i u T U with
    | error e => rw [hi] at h; cases h
    | ok TU =>
      rw [hi] at h
      refine ih _ _ _ _ ?_ h
      unfold pbkdf2Iter at hi
      split at hi
      · cases hi
      · split at hi
        · cases hi
        · split at hi
          · cases hi
          · cases hi
            exact xorInto_length _ _ _

/-- A successful block computation yields an `hLen`-byte block. -/
theorem pbkdf2Block_length (prf : PRF) (P S : List Byte) (c i : Nat)
    (T : List Byte) (h : pbkdf2Block prf P S c i = .ok T) :
    T.length = prf.hLen :=
  pbkdf2BlockGo_length prf P S i c 1 _ _ T (by simp) h

theorem getD_take (xs : List Byte) (n k : Nat) (hk : k < n) :
    (xs.take n).getD k 0 = xs.getD k 0 := by
  simp [List.getD_eq_getElem?_getD, List.getElem?_take, hk]

theorem writeBytes_apply_in (DK : Nat → Byte) (off : Nat) (bs : List Byte)
    (j : Nat) (h1 : off ≤ j) (h2 : j < off + bs.length) :
    writeBytes DK off bs j = bs.getD (j - off) 0 := by
  simp [writeBytes, h1, h2]

theorem writeBytes_apply_out (DK : Nat → Byte) (off : Nat) (bs : List Byte)
    (j : Nat) (h : j < off ∨ off + bs.length ≤ j) :
    writeBytes DK off bs j = DK j := by
  simp only [writeBytes]
  rw [if_neg (by omega)]

/-- A byte position `j` inside the region of the 1-indexed block `i`
(`(i-1)*hLen ≤ j < i*hLen`) has block index `j / hLen = i - 1` and in-block
offset `j % hLen = j - (i-1)*hLen`. -/
theorem div_mod_block (H i j : Nat) (hi : 1 ≤ i)
    (h1 : (i - 1) * H ≤ j) (h2 : j < i * H) :
    j / H = i - 1 ∧ j % H = j - (i - 1) * H := by
  have hdiv : j / H = i - 1 := by
    refine Nat.div_eq_of_lt_le h1 ?_
    rw [show i - 1 + 1 = i from by omega]
    exact h2
  refine ⟨hdiv, ?_⟩
  have hdm := Nat.div_add_mod j H
  rw [hdiv] at hdm
  have hmul : H * (i - 1) = (i - 1) * H := Nat.mul_comm _ _
  omega

/-- Outer-loop characterisation of a successful run, with no assumption on
the PRF: starting at block `i` with `fuel = l + 1 - i` blocks left, a run
that ends in `Except.ok` has written, at every position `j` of the region
from `(i-1)*hLen` up to `(l-1)*hLen + r`, byte `j % hLen` of the
successfully computed block `j / hLen + 1`, and has left every position
outside that region untouched. -/
theorem pbkdf2Loop_ok_partial (prf : PRF) (P S : List Byte) (c l r : Nat)
    (hl : 1 ≤ l) (hH : 1 ≤ prf.hLen) (hr1 : 1 ≤ r) (hrH : r ≤ prf.hLen) :
    ∀ fuel i DK DKout, 1 ≤ i → i + fuel = l + 1 →
      pbkdf2Loop prf P S c l r fuel i DK = (.ok (), DKout) →
      (∀ j, (i - 1) * prf.hLen ≤ j → j < (l - 1) * prf.hLen + r →
        ∃ T, pbkdf2Block prf P S c (j / prf.hLen + 1) = .ok T ∧
          DKout j = T.getD (j % prf.hLen) 0) ∧
      (∀ j, j < (i - 1) * prf.hLen ∨ (l - 1) * prf.hLen + r ≤ j →
        DKout j = DK j) := by
  intro fuel
  induction fuel with
  | zero =>
    intro i DK DKout hi hil h
    simp only [pbkdf2Loop, Prod.mk.injEq] at h
    obtain ⟨-, rfl⟩ := h
    have hieq : i = l + 1 := by omega
    subst hieq
    have e2 : (l - 1) * prf.hLen + prf.hLen = l * prf.hLen := by
      rw [show (l - 1) * prf.hLen + prf.hLen = (l - 1 + 1) * prf.hLen from
        (Nat.succ_mul _ _).symm, show l - 1 + 1 = l from by omega]
    have e3 : (l + 1 - 1) * prf.hLen = l * prf.hLen := by
      rw [show l + 1 - 1 = l from by omega]
    exact ⟨fun j h1 h2 => absurd h1 (by omega), fun j h => rfl⟩
  | succ fuel ih =>
    intro i DK DKout hi hil h
    rw [pbkdf2Loop] at h
    cases hb : pbkdf2Block prf P S c i with
    | error e => rw [hb] at h; simp at h
    | ok T =>
      rw [hb] at h
      have hTlen : T.length = prf.hLen := pbkdf2Block_length prf P S c i T hb
      set n := if i = l then r else prf.hLen with hn
      have hnH : n ≤ prf.hLen := by
        rw [hn]; split
        · exact hrH
        · exact Nat.le_refl _
      have htakelen : (T.take n).length = n := by
        rw [List.length_take, hTlen]
        omega
      obtain ⟨IH1, IH2⟩ := ih (i + 1)
        (writeBytes DK ((i - 1) * prf.hLen) (T.take n)) DKout
        (by omega) (by omega) h
      have e1 : (i - 1) * prf.hLen + prf.hLen = i * prf.hLen := by
        rw [show (i - 1) * prf.hLen + prf.hLen = (i - 1 + 1) * prf.hLen from
          (Nat.succ_mul _ _).symm, show i - 1 + 1 = i from by omega]
      have e2 : (l - 1) * prf.hLen + prf.hLen = l * prf.hLen := by
        rw [show (l - 1) * prf.hLen + prf.hLen = (l - 1 + 1) * prf.hLen from
          (Nat.succ_mul _ _).symm, show l - 1 + 1 = l from by omega]
      have e3 : (i + 1 - 1) * prf.hLen = i * prf.hLen := by
        rw [show i + 1 - 1 = i from by omega]
      have e4 : (i - 1) * prf.hLen ≤ (l - 1) * prf.hLen :=
        Nat.mul_le_mul_right _ (by omega)
      constructor
      · intro j h1 h2
        by_cases hj : i * prf.hLen ≤ j
        · exact IH1 j (by omega) h2
        · push_neg at hj
          have hwr : j < (i - 1) * prf.hLen + n := by
            rw [hn]; split
            · next hil' =>
              subst hil'
              omega
            · omega
          have hDK1 : DKout j = writeBytes DK ((i - 1) * prf.hLen) (T.take n) j :=
            IH2 j (Or.inl (by omega))
          rw [hDK1, writeBytes_apply_in _ _ _ _ h1 (by omega),
            getD_take _ _ _ (by omega)]
          obtain ⟨hdiv, hmod⟩ := div_mod_block prf.hLen i j hi h1 hj
          refine ⟨T, ?_, ?_⟩
          · rw [hdiv, show i - 1 + 1 = i from by omega]
            exact hb
          · rw [hmod]
      · intro j hj
        have hDK1 : DKout j = writeBytes DK ((i - 1) * prf.hLen) (T.take n) j := by
          refine IH2 j ?_
          rcases hj with hj | hj
          · exact Or.inl (by omega)
          · exact Or.inr hj
        rw [hDK1]
        refine writeBytes_apply_out _ _ _ _ ?_
        rw [htakelen]
        rcases hj with hj | hj
        · exact Or.inl hj
        · refine Or.inr ?_
          rw [hn]
          split
          · next hil' => subst hil'; omega
          · next hil' =>
            have hil1 : i ≤ l - 1 := by omega
            have e5 : i * prf.hLen ≤ (l - 1) * prf.hLen :=
              Nat.mul_le_mul_right _ hil1
            omega

/-- Outer-loop characterisation of a failing run: some block `i + t` fails,
the `t` blocks before it were computed successfully and written in full
(`hLen` bytes each), and every position outside those `t` complete blocks is
untouched. -/
theorem pbkdf2Loop_error_partial (prf : PRF) (P S : List Byte) (c l r : Nat)
    (hl : 1 ≤ l) (hH : 1 ≤ prf.hLen) :
    ∀ fuel i DK e DKout, 1 ≤ i → i + fuel = l + 1 →
      pbkdf2Loop prf P S c l r fuel i DK = (.error e, DKout) →
      ∃ t, t < fuel ∧ pbkdf2Block prf P S c (i + t) = .error e ∧
        (∀ j, (i - 1) * prf.hLen ≤ j → j < (i + t - 1) * prf.hLen →
          ∃ T, pbkdf2Block prf P S c (j / prf.hLen + 1) = .ok T ∧
            DKout j = T.getD (j % prf.hLen) 0) ∧
        (∀ j, j < (i - 1) * prf.hLen ∨ (i + t - 1) * prf.hLen ≤ j →
          DKout j = DK j) := by
  intro fuel
  induction fuel with
  | zero =>
    intro i DK e DKout hi hil h
    simp [pbkdf2Loop] at h
  | succ fuel ih =>
    intro i DK e DKout hi hil h
    rw [pbkdf2Loop] at h
    cases hb : pbkdf2Block prf P S c i with
    | error e' =>
      rw [hb] at h
      simp only [Prod.mk.injEq, Except.error.injEq] at h
      obtain ⟨rfl, rfl⟩ := h
      refine ⟨0, by omega, by simpa using hb, ?_, fun j hj => rfl⟩
      intro j h1 h2
      exfalso
      rw [show i + 0 - 1 = i - 1 from by omega] at h2
      omega
    | ok T =>
      rw [hb] at h
      have hTlen : T.length = prf.hLen := pbkdf2Block_length prf P S c i T hb
      obtain ⟨t', ht'fuel, hfail, IH1, IH2⟩ := ih (i + 1)
        (writeBytes DK ((i - 1) * prf.hLen)
          (T.take (if i = l then r else prf.hLen))) e DKout
        (by omega) (by omega) h
      have hil1 : i ≤ l - 1 := by omega
      have hinl : ¬ i = l := by omega
      rw [if_neg hinl] at IH2
      have htake : T.take prf.hLen = T := by
        rw [← hTlen]
        exact List.take_length T
      rw [htake] at IH2
      have e1 : (i - 1) * prf.hLen + prf.hLen = i * prf.hLen := by
        rw [show (i - 1) * prf.hLen + prf.hLen = (i - 1 + 1) * prf.hLen from
          (Nat.succ_mul _ _).symm, show i - 1 + 1 = i from by omega]
      have e3 : (i + 1 - 1) * prf.hLen = i * prf.hLen := by
        rw [show i + 1 - 1 = i from by omega]
      have e6 : (i + 1 + t' - 1) * prf.hLen = (i + (t' + 1) - 1) * prf.hLen := by
        rw [show i + 1 + t' - 1 = i + (t' + 1) - 1 from by omega]
      have e7 : i * prf.hLen ≤ (i + (t' + 1) - 1) * prf.hLen :=
        Nat.mul_le_mul_right _ (by omega)
      refine ⟨t' + 1, by omega, ?_, ?_, ?_⟩
      · rw [show i + (t' + 1) = i + 1 + t' from by omega]
        exact hfail
      · intro j h1 h2
        by_cases hj : i * prf.hLen ≤ j
        · refine IH1 j (by omega) (by omega)
        · push_neg at hj
          have hDK1 : DKout j = writeBytes DK ((i - 1) * prf.hLen) T j :=
            IH2 j (Or.inl (by omega))
          rw [hDK1, writeBytes_apply_in _ _ _ _ h1 (by omega)]
          obtain ⟨hdiv, hmod⟩ := div_mod_block prf.hLen i j hi h1 hj
          refine ⟨T, ?_, ?_⟩
          · rw [hdiv, show i - 1 + 1 = i from by omega]
            exact hb
          · rw [hmod]
      · intro j hj
        have hDK1 : DKout j = writeBytes DK ((i - 1) * prf.hLen) T j := by
          refine IH2 j ?_
          rcases hj with hj | hj
          · exact Or.inl (by omega)
          · exact Or.inr (by omega)
        rw [hDK1]
        refine writeBytes_apply_out _ _ _ _ ?_
        rw [hTlen]
        rcases hj with hj | hj
        · exact Or.inl hj
        · exact Or.inr (by omega)

/-- Under `AllOk` and `c ≥ 1` the outer loop never fails. -/
theorem pbkdf2Loop_allOk (prf : PRF) (P S : List Byte)
    (f : List Byte → List Byte) (hAll : AllOk prf P S f)
    (c : Nat) (hc : 1 ≤ c) (l r : Nat) :
    ∀ fuel i DK, ∃ DKout,
      pbkdf2Loop prf P S c l r fuel i DK = (.ok (), DKout) := by
  intro fuel
  induction fuel with
  | zero => intro i DK; exact ⟨DK, rfl⟩
  | succ fuel ih =>
    intro i DK
    rw [pbkdf2Loop, pbkdf2Block_ok prf P S f hAll c hc i]
    exact ih _ _

/-- The computed block count is at least 1, and `dkLen` lies strictly above
`(l-1)*hLen` and at most `l*hLen`. -/
theorem blockCount_bounds (dkLen hLen : Nat) (hd : 1 ≤ dkLen) (hH : 1 ≤ hLen) :
    1 ≤ blockCount dkLen hLen ∧
      (blockCount dkLen hLen - 1) * hLen < dkLen ∧
      dkLen ≤ blockCount dkLen hLen * hLen := by
  obtain ⟨q, hq⟩ : ∃ q, dkLen / hLen = q := ⟨_, rfl⟩
  obtain ⟨m, hm0⟩ : ∃ m, dkLen % hLen = m := ⟨_, rfl⟩
  have hdm := Nat.div_add_mod dkLen hLen
  rw [hq, hm0] at hdm
  have hmlt : m < hLen := hm0 ▸ Nat.mod_lt _ (by omega)
  unfold blockCount
  rw [hq, hm0]
  by_cases hm : m = 0
  · subst hm
    rw [if_neg (fun h => h rfl), Nat.add_zero]
    rcases Nat.eq_zero_or_pos q with h0 | h1
    · subst h0
      simp at hdm
      omega
    · have s1 : (q - 1) * hLen + hLen = q * hLen := by
        rw [show (q - 1) * hLen + hLen = (q - 1 + 1) * hLen from
          (Nat.succ_mul _ _).symm, show q - 1 + 1 = q from by omega]
      have s2 : q * hLen = hLen * q := Nat.mul_comm _ _
      omega
  · rw [if_pos hm]
    have s1 : (q + 1 - 1) * hLen = q * hLen := by
      rw [Nat.add_sub_cancel]
    have s2 : (q + 1) * hLen = q * hLen + hLen := Nat.succ_mul _ _
    have s3 : q * hLen = hLen * q := Nat.mul_comm _ _
    omega

/-- The computed block count equals the ceiling `⌈dkLen / hLen⌉`. -/
theorem blockCount_eq_ceil (dkLen hLen : Nat) (hH : 1 ≤ hLen) :
    blockCount dkLen hLen = (dkLen + hLen - 1) / hLen := by
  obtain ⟨q, hq⟩ : ∃ q, dkLen / hLen = q := ⟨_, rfl⟩
  obtain ⟨m, hm0⟩ : ∃ m, dkLen % hLen = m := ⟨_, rfl⟩
  have hdm := Nat.div_add_mod dkLen hLen
  rw [hq, hm0] at hdm
  have hmlt : m < hLen := hm0 ▸ Nat.mod_lt _ (by omega)
  unfold blockCount
  rw [hq, hm0]
  by_cases hm : m = 0
  · subst hm
    rw [if_neg (fun h => h rfl), Nat.add_zero]
    have key : dkLen + hLen - 1 = hLen * q + (hLen - 1) := by omega
    rw [key, Nat.mul_add_div (by omega), Nat.div_eq_of_lt (by omega)]
    omega
  · rw [if_pos hm]
    have s2 : hLen * (q + 1) = hLen * q + hLen := Nat.mul_succ _ _
    have key : dkLen + hLen - 1 = hLen * (q + 1) + (m - 1) := by omega
    rw [key, Nat.mul_add_div (by omega), Nat.div_eq_of_lt (by omega)]

/-- When all four validation guards pass and the context opens, the call is
the outer loop over `l = blockCount dkLen hLen` blocks with remainder `r`,
with the context opened, and closed exactly on the success path. -/
theorem gnutls_pkcs5_pbkdf2_run (prf : PRF) (P S : List Byte) (c dkLen : Nat)
    (DK0 : Nat → Byte)
    (hH1 : 1 ≤ prf.hLen) (hH2 : prf.hLen ≤ MAX_PRF_BLOCK_LEN)
    (hc : 1 ≤ c) (hd1 : 1 ≤ dkLen) (hd2 : dkLen ≤ 4294967295)
    (hopen : prf.openOk = true) :
    gnutls_pkcs5_pbkdf2 prf P S c dkLen DK0 =
      (match pbkdf2Loop prf P S c (blockCount dkLen prf.hLen)
          (dkLen - (blockCount dkLen prf.hLen - 1) * prf.hLen)
          (blockCount dkLen prf.hLen) 1 DK0 with
        | (.error e, DK) => ⟨e, DK, true, false⟩
        | (.ok _, DK) => ⟨.PKCS5_OK, DK, true, true⟩) := by
  have h80 : MAX_PRF_BLOCK_LEN = 80 := rfl
  unfold gnutls_pkcs5_pbkdf2
  rw [if_neg (by omega), if_neg (by omega), if_neg (by omega), if_neg (by omega),
    if_neg (by simp [hopen])]

/-- Main success characterisation: when the parameters pass validation and
every PRF invocation succeeds (digests computed by the total function `f`),
the call returns `PKCS5_OK`, the context is opened and closed, every output
byte `j < dkLen` is byte `j % hLen` of the specification block
`T_(j/hLen + 1)`, and the buffer beyond `dkLen` is untouched. -/
theorem pbkdf2_ok_spec (prf : PRF) (P S : List Byte) (f : List Byte → List Byte)
    (hAll : AllOk prf P S f) (c dkLen : Nat) (DK0 : Nat → Byte)
    (hH1 : 1 ≤ prf.hLen) (hH2 : prf.hLen ≤ MAX_PRF_BLOCK_LEN)
    (hc : 1 ≤ c) (hd1 : 1 ≤ dkLen) (hd2 : dkLen ≤ 4294967295) :
    (gnutls_pkcs5_pbkdf2 prf P S c dkLen DK0).res = .PKCS5_OK ∧
      (∀ j, j < dkLen →
        (gnutls_pkcs5_pbkdf2 prf P S c dkLen DK0).DK j =
          (specT f S prf.hLen (j / prf.hLen + 1) c).getD (j % prf.hLen) 0) ∧
      (∀ j, dkLen ≤ j → (gnutls_pkcs5_pbkdf2 prf P S c dkLen DK0).DK j = DK0 j) ∧
      (gnutls_pkcs5_pbkdf2 prf P S c dkLen DK0).opened = true ∧
      (gnutls_pkcs5_pbkdf2 prf P S c dkLen DK0).closed = true := by
  have hrun := gnutls_pkcs5_pbkdf2_run prf P S c dkLen DK0 hH1 hH2 hc hd1 hd2 hAll.1
  obtain ⟨l, hl0⟩ : ∃ l, blockCount dkLen prf.hLen = l := ⟨_, rfl⟩
  obtain ⟨hl1, hlb1, hlb2⟩ := blockCount_bounds dkLen prf.hLen hd1 hH1
  rw [hl0] at hrun hl1 hlb1 hlb2
  obtain ⟨r, hr0⟩ : ∃ r, dkLen - (l - 1) * prf.hLen = r := ⟨_, rfl⟩
  rw [hr0] at hrun
  have hr1 : 1 ≤ r := by omega
  have hext : (l - 1) * prf.hLen + r = dkLen := by omega
  have hrH : r ≤ prf.hLen := by
    have e2 : (l - 1) * prf.hLen + prf.hLen = l * prf.hLen := by
      rw [show (l - 1) * prf.hLen + prf.hLen = (l - 1 + 1) * prf.hLen from
        (Nat.succ_mul _ _).symm, show l - 1 + 1 = l from by omega]
    omega
  obtain ⟨DKout, hloop⟩ := pbkdf2Loop_allOk prf P S f hAll c hc l r l 1 DK0
  rw [hloop] at hrun
  obtain ⟨HOK, Hpres⟩ := pbkdf2Loop_ok_partial prf P S c l r hl1 hH1 hr1 hrH
    l 1 DK0 DKout (by omega) (by omega) hloop
  rw [hrun]
  refine ⟨rfl, ?_, ?_, rfl, rfl⟩
  · intro j hj
    obtain ⟨T, hT, hbyte⟩ := HOK j (by omega) (by omega)
    have hspec := pbkdf2Block_ok prf P S f hAll c hc (j / prf.hLen + 1)
    rw [hT] at hspec
    have hTeq := Except.ok.inj hspec
    rw [hTeq] at hbyte
    exact hbyte
  · intro j hj
    exact Hpres j (Or.inr (by omega))

/-- Branch evaluation: unusable PRF digest length (first check). -/
theorem run_hlen_fail (prf : PRF) (P S : List Byte) (c dkLen : Nat)
    (DK0 : Nat → Byte) (h1 : prf.hLen = 0 ∨ prf.hLen > MAX_PRF_BLOCK_LEN) :
    gnutls_pkcs5_pbkdf2 prf P S c dkLen DK0 =
      ⟨.PKCS5_INVALID_PRF, DK0, false, false⟩ := by
  unfold gnutls_pkcs5_pbkdf2
  rw [if_pos h1]

/-- Branch evaluation: zero iteration count (second check). -/
theorem run_iter_fail (prf : PRF) (P S : List Byte) (c dkLen : Nat)
    (DK0 : Nat → Byte) (h1 : ¬(prf.hLen = 0 ∨ prf.hLen > MAX_PRF_BLOCK_LEN))
    (h2 : c = 0) :
    gnutls_pkcs5_pbkdf2 prf P S c dkLen DK0 =
      ⟨.PKCS5_INVALID_ITERATION_COUNT, DK0, false, false⟩ := by
  unfold gnutls_pkcs5_pbkdf2
  rw [if_neg h1, if_pos h2]

/-- Branch evaluation: zero requested length (third check). -/
theorem run_dklen_fail (prf : PRF) (P S : List Byte) (c dkLen : Nat)
    (DK0 : Nat → Byte) (h1 : ¬(prf.hLen = 0 ∨ prf.hLen > MAX_PRF_BLOCK_LEN))
    (h2 : ¬c = 0) (h3 : dkLen = 0) :
    gnutls_pkcs5_pbkdf2 prf P S c dkLen DK0 =
      ⟨.PKCS5_INVALID_DERIVED_KEY_LENGTH, DK0, false, false⟩ := by
  unfold gnutls_pkcs5_pbkdf2
  rw [if_neg h1, if_neg h2, if_pos h3]

/-- Branch evaluation: the fourth check `dkLen > 4294967295`. -/
theorem run_too_long (prf : PRF) (P S : List Byte) (c dkLen : Nat)
    (DK0 : Nat → Byte) (h1 : ¬(prf.hLen = 0 ∨ prf.hLen > MAX_PRF_BLOCK_LEN))
    (h2 : ¬c = 0) (h3 : ¬dkLen = 0) (h4 : dkLen > 4294967295) :
    gnutls_pkcs5_pbkdf2 prf P S c dkLen DK0 =
      ⟨.PKCS5_DERIVED_KEY_TOO_LONG, DK0, false, false⟩ := by
  unfold gnutls_pkcs5_pbkdf2
  rw [if_neg h1, if_neg h2, if_neg h3, if_pos h4]

/-- Branch evaluation: `gcry_md_open` fails after all checks pass. -/
theorem run_open_fail (prf : PRF) (P S : List Byte) (c dkLen : Nat)
    (DK0 : Nat → Byte) (h1 : ¬(prf.hLen = 0 ∨ prf.hLen > MAX_PRF_BLOCK_LEN))
    (h2 : ¬c = 0) (h3 : ¬dkLen = 0) (h4 : ¬dkLen > 4294967295)
    (h5 : prf.openOk = false) :
    gnutls_pkcs5_pbkdf2 prf P S c dkLen DK0 =
      ⟨.PKCS5_INVALID_PRF, DK0, false, false⟩ := by
  unfold gnutls_pkcs5_pbkdf2
  rw [if_neg h1, if_neg h2, if_neg h3, if_neg h4, if_pos h5]

/-- On any representable `dkLen` (an `unsigned int`, hence at most
`2^32 - 1`), no execution path returns `PKCS5_DERIVED_KEY_TOO_LONG`. -/
theorem res_ne_too_long (prf : PRF) (P S : List Byte) (c dkLen : Nat)
    (DK0 : Nat → Byte) (hd2 : dkLen ≤ 4294967295) :
    (gnutls_pkcs5_pbkdf2 prf P S c dkLen DK0).res ≠
      .PKCS5_DERIVED_KEY_TOO_LONG := by
  by_cases h1 : prf.hLen = 0 ∨ prf.hLen > MAX_PRF_BLOCK_LEN
  · rw [run_hlen_fail prf P S c dkLen DK0 h1]
    simp
  by_cases h2 : c = 0
  · rw [run_iter_fail prf P S c dkLen DK0 h1 h2]
    simp
  by_cases h3 : dkLen = 0
  · rw [run_dklen_fail prf P S c dkLen DK0 h1 h2 h3]
    simp
  by_cases h5 : prf.openOk = true
  · push_neg at h1
    rw [gnutls_pkcs5_pbkdf2_run prf P S c dkLen DK0 (by omega) h1.2 (by omega)
      (by omega) hd2 h5]
    rcases hlp : pbkdf2Loop prf P S c (blockCount dkLen prf.hLen)
        (dkLen - (blockCount dkLen prf.hLen - 1) * prf.hLen)
        (blockCount dkLen prf.hLen) 1 DK0 with ⟨e | u, DKx⟩
    · have he := pbkdf2Loop_error prf P S c _ _ _ _ _ _ _ hlp
      subst he
      simp
    · simp
  · rw [run_open_fail prf P S c dkLen DK0 h1 h2 h3 (by omega)
      (by simpa using h5)]
    simp

/-- Full case split on the outcome of a call, with no assumption on the
PRF: on success every output byte below `dkLen` comes from a successfully
computed block and nothing beyond `dkLen` is touched; on failure there is an
`m` (the number of completed blocks, with `m * hLen ≤ dkLen`) such that
positions below `m * hLen` hold completed block bytes and every position at
or above `m * hLen` is untouched. -/
theorem pbkdf2_partial_cases (prf : PRF) (P S : List Byte) (c dkLen : Nat)
    (DK0 : Nat → Byte) :
    ((gnutls_pkcs5_pbkdf2 prf P S c dkLen DK0).res = .PKCS5_OK →
      (∀ j, j < dkLen → ∃ T,
          pbkdf2Block prf P S c (j / prf.hLen + 1) = .ok T ∧
          (gnutls_pkcs5_pbkdf2 prf P S c dkLen DK0).DK j =
            T.getD (j % prf.hLen) 0) ∧
      (∀ j, dkLen ≤ j →
        (gnutls_pkcs5_pbkdf2 prf P S c dkLen DK0).DK j = DK0 j)) ∧
    ((gnutls_pkcs5_pbkdf2 prf P S c dkLen DK0).res ≠ .PKCS5_OK →
      ∃ m, m * prf.hLen ≤ dkLen ∧
        (∀ j, j < m * prf.hLen → ∃ T,
            pbkdf2Block prf P S c (j / prf.hLen + 1) = .ok T ∧
            (gnutls_pkcs5_pbkdf2 prf P S c dkLen DK0).DK j =
              T.getD (j % prf.hLen) 0) ∧
        (∀ j, m * prf.hLen ≤ j →
          (gnutls_pkcs5_pbkdf2 prf P S c dkLen DK0).DK j = DK0 j)) := by
  have trivialBad :
      ∀ rc DKb, gnutls_pkcs5_pbkdf2 prf P S c dkLen DK0 = ⟨rc, DK0, false, DKb⟩ →
        rc ≠ .PKCS5_OK →
        ((gnutls_pkcs5_pbkdf2 prf P S c dkLen DK0).res = .PKCS5_OK →
          (∀ j, j < dkLen → ∃ T,
              pbkdf2Block prf P S c (j / prf.hLen + 1) = .ok T ∧
              (gnutls_pkcs5_pbkdf2 prf P S c dkLen DK0).DK j =
                T.getD (j % prf.hLen) 0) ∧
          (∀ j, dkLen ≤ j →
            (gnutls_pkcs5_pbkdf2 prf P S c dkLen DK0).DK j = DK0 j)) ∧
        ((gnutls_pkcs5_pbkdf2 prf P S c dkLen DK0).res ≠ .PKCS5_OK →
          ∃ m, m * prf.hLen ≤ dkLen ∧
            (∀ j, j < m * prf.hLen → ∃ T,
                pbkdf2Block prf P S c (j / prf.hLen + 1) = .ok T ∧
                (gnutls_pkcs5_pbkdf2 prf P S c dkLen DK0).DK j =
                  T.getD (j % prf.hLen) 0) ∧
            (∀ j, m * prf.hLen ≤ j →
              (gnutls_pkcs5_pbkdf2 prf P S c dkLen DK0).DK j = DK0 j)) := by
    intro rc DKb heq hne
    rw [heq]
    constructor
    · intro h
      exact absurd h hne
    · intro _
      exact ⟨0, by omega, fun j hj => absurd hj (by omega), fun j hj => rfl⟩
  by_cases h1 : prf.hLen = 0 ∨ prf.hLen > MAX_PRF_BLOCK_LEN
  · exact trivialBad _ _ (run_hlen_fail prf P S c dkLen DK0 h1) (by decide)
  by_cases h2 : c = 0
  · exact trivialBad _ _ (run_iter_fail prf P S c dkLen DK0 h1 h2) (by decide)
  by_cases h3 : dkLen = 0
  · exact trivialBad _ _ (run_dklen_fail prf P S c dkLen DK0 h1 h2 h3) (by decide)
  by_cases h4 : dkLen > 4294967295
  · exact trivialBad _ _ (run_too_long prf P S c dkLen DK0 h1 h2 h3 h4) (by decide)
  by_cases h5 : prf.openOk = true
  case neg =>
    exact trivialBad _ _
      (run_open_fail prf P S c dkLen DK0 h1 h2 h3 h4 (by simpa using h5))
      (by decide)
  case pos =>
    push_neg at h1
    have hH1 : 1 ≤ prf.hLen := by omega
    have hd1 : 1 ≤ dkLen := by omega
    have hrun := gnutls_pkcs5_pbkdf2_run prf P S c dkLen DK0 hH1 h1.2 (by omega)
      hd1 (by omega) h5
    obtain ⟨l, hl0⟩ : ∃ l, blockCount dkLen prf.hLen = l := ⟨_, rfl⟩
    obtain ⟨hl1, hlb1, hlb2⟩ := blockCount_bounds dkLen prf.hLen hd1 hH1
    rw [hl0] at hrun hl1 hlb1 hlb2
    obtain ⟨r, hr0⟩ : ∃ r, dkLen - (l - 1) * prf.hLen = r := ⟨_, rfl⟩
    rw [hr0] at hrun
    have hr1 : 1 ≤ r := by omega
    have hext : (l - 1) * prf.hLen + r = dkLen := by omega
    have hrH : r ≤ prf.hLen := by
      have e2 : (l - 1) * prf.hLen + prf.hLen = l * prf.hLen := by
        rw [show (l - 1) * prf.hLen + prf.hLen = (l - 1 + 1) * prf.hLen from
          (Nat.succ_mul _ _).symm, show l - 1 + 1 = l from by omega]
      omega
    rcases hlp : pbkdf2Loop prf P S c l r l 1 DK0 with ⟨e | u, DKx⟩
    · rw [hlp] at hrun
      have he := pbkdf2Loop_error prf P S c l r l 1 DK0 e DKx hlp
      subst he
      rw [hrun]
      constructor
      · intro h
        simp at h
      · intro _
        obtain ⟨t, htl, hfail, Hin, Hout⟩ := pbkdf2Loop_error_partial prf P S c l r
          hl1 hH1 l 1 DK0 _ DKx (by omega) (by omega) hlp
        rw [show 1 + t - 1 = t from by omega] at Hin Hout
        refine ⟨t, ?_, ?_, ?_⟩
        · have : t * prf.hLen ≤ (l - 1) * prf.hLen :=
            Nat.mul_le_mul_right _ (by omega)
          omega
        · intro j hj
          exact Hin j (by omega) hj
        · intro j hj
          exact Hout j (Or.inr hj)
    · rw [hlp] at hrun
      rw [hrun]
      obtain ⟨HOK, Hpres⟩ := pbkdf2Loop_ok_partial prf P S c l r hl1 hH1 hr1 hrH
        l 1 DK0 DKx (by omega) (by omega) hlp
      constructor
      · intro _
        constructor
        · intro j hj
          exact HOK j (by omega) (by omega)
        · intro j hj
          exact Hpres j (Or.inr (by omega))
      · intro h
        exact absurd rfl h

/-! ## Claims -/

/-- C1: for every PRF with `1 ≤ hLen ≤ MAX_PRF_BLOCK_LEN`, every password,
salt, iteration count `c ≥ 1` and valid output length, when every PRF
invocation succeeds (digests computed by the total function `f`), the call
returns `PKCS5_OK` and fills the output with the blocks `T_1 .. T_l`: byte
`j` of the output is byte `j % hLen` of `T_(j/hLen + 1)`, where `T_i` is the
byte-wise XOR of the `c` chained iterates
`U_1 = PRF(password, salt || INT32_BE i)`, `U_k = PRF(password, U_(k-1))`,
with the 4-byte block index big-endian and blocks indexed from 1. -/
theorem claim_C1 (prf : PRF) (P S : List Byte) (f : List Byte → List Byte)
    (c dkLen : Nat) (DK0 : Nat → Byte) (hAll : AllOk prf P S f)
    (hH1 : 1 ≤ prf.hLen) (hH2 : prf.hLen ≤ MAX_PRF_BLOCK_LEN)
    (hc : 1 ≤ c) (hd1 : 1 ≤ dkLen) (hd2 : dkLen ≤ 4294967295) :
    (gnutls_pkcs5_pbkdf2 prf P S c dkLen DK0).res = .PKCS5_OK ∧
      ∀ j, j < dkLen →
        (gnutls_pkcs5_pbkdf2 prf P S c dkLen DK0).DK j =
          (specT f S prf.hLen (j / prf.hLen + 1) c).getD (j % prf.hLen) 0 := by
  obtain ⟨h1, h2, -, -, -⟩ :=
    pbkdf2_ok_spec prf P S f hAll c dkLen DK0 hH1 hH2 hc hd1 hd2
  exact ⟨h1, h2⟩

theorem claim_C1_witness :
    (gnutls_pkcs5_pbkdf2 wPRF [3] [5] 2 5 (fun _ => 0)).res = .PKCS5_OK ∧
      ∀ j, j < 5 →
        (gnutls_pkcs5_pbkdf2 wPRF [3] [5] 2 5 (fun _ => 0)).DK j =
          (specT wf [5] wPRF.hLen (j / wPRF.hLen + 1) 2).getD (j % wPRF.hLen) 0 :=
  claim_C1 wPRF [3] [5] wf 2 5 (fun _ => 0)
    ⟨rfl, rfl, rfl, fun _ => rfl, fun _ => rfl⟩
    (by decide) (by decide) (by decide) (by decide) (by decide)

/-- C2: for every PRF whose digest length passes validation, iteration count
at least 1 and output length at least 1 (and representable as the
`unsigned int` parameter, so below `2^32`), the call fails with
`PKCS5_DERIVED_KEY_TOO_LONG` if and only if the requested length exceeds
`(2^32 - 1) * hLen` — both sides being false on the whole representable
domain. -/
theorem claim_C2 (prf : PRF) (P S : List Byte) (c dkLen : Nat)
    (DK0 : Nat → Byte)
    (hH : ¬(prf.hLen = 0 ∨ prf.hLen > MAX_PRF_BLOCK_LEN))
    (hc : 1 ≤ c) (hd1 : 1 ≤ dkLen) (hd2 : dkLen < 2 ^ 32) :
    ((gnutls_pkcs5_pbkdf2 prf P S c dkLen DK0).res =
        .PKCS5_DERIVED_KEY_TOO_LONG) ↔
      dkLen > (2 ^ 32 - 1) * prf.hLen := by
  constructor
  · intro h
    exact absurd h (res_ne_too_long prf P S c dkLen DK0 (by omega))
  · intro h
    exfalso
    push_neg at hH
    have hmul : (2 ^ 32 - 1) * 1 ≤ (2 ^ 32 - 1) * prf.hLen :=
      Nat.mul_le_mul_left _ (by omega)
    omega

theorem claim_C2_witness :
    ((gnutls_pkcs5_pbkdf2 wPRF [] [] 1 1 (fun _ => 0)).res =
        .PKCS5_DERIVED_KEY_TOO_LONG) ↔
      1 > (2 ^ 32 - 1) * wPRF.hLen :=
  claim_C2 wPRF [] [] 1 1 (fun _ => 0) (by decide) (by decide) (by decide)
    (by norm_num)

/-- C3: the three validation checks run in the fixed order
hLen-validity, then iteration count, then output length; each failure
returns its own distinct code, leaves the buffer untouched and happens
before any PRF work (no context is opened), so the earliest failing check
determines the error. -/
theorem claim_C3 (prf : PRF) (P S : List Byte) (c dkLen : Nat)
    (DK0 : Nat → Byte) :
    ((prf.hLen = 0 ∨ prf.hLen > MAX_PRF_BLOCK_LEN) →
        gnutls_pkcs5_pbkdf2 prf P S c dkLen DK0 =
          ⟨.PKCS5_INVALID_PRF, DK0, false, false⟩) ∧
      (¬(prf.hLen = 0 ∨ prf.hLen > MAX_PRF_BLOCK_LEN) → c = 0 →
        gnutls_pkcs5_pbkdf2 prf P S c dkLen DK0 =
          ⟨.PKCS5_INVALID_ITERATION_COUNT, DK0, false, false⟩) ∧
      (¬(prf.hLen = 0 ∨ prf.hLen > MAX_PRF_BLOCK_LEN) → ¬c = 0 → dkLen = 0 →
        gnutls_pkcs5_pbkdf2 prf P S c dkLen DK0 =
          ⟨.PKCS5_INVALID_DERIVED_KEY_LENGTH, DK0, false, false⟩) ∧
      (Rc.PKCS5_INVALID_PRF ≠ Rc.PKCS5_INVALID_ITERATION_COUNT ∧
        Rc.PKCS5_INVALID_PRF ≠ Rc.PKCS5_INVALID_DERIVED_KEY_LENGTH ∧
        Rc.PKCS5_INVALID_ITERATION_COUNT ≠ Rc.PKCS5_INVALID_DERIVED_KEY_LENGTH) :=
  ⟨run_hlen_fail prf P S c dkLen DK0,
    fun h1 h2 => run_iter_fail prf P S c dkLen DK0 h1 h2,
    fun h1 h2 h3 => run_dklen_fail prf P S c dkLen DK0 h1 h2 h3,
    by decide, by decide, by decide⟩

theorem claim_C3_witness :
    gnutls_pkcs5_pbkdf2 wPRF [] [] 0 5 (fun _ => 0) =
      ⟨.PKCS5_INVALID_ITERATION_COUNT, (fun _ => 0), false, false⟩ :=
  (claim_C3 wPRF [] [] 0 5 (fun _ => 0)).2.1 (by decide) rfl

/-- C9: for every input with `dkLen` representable as the 32-bit
`unsigned int` parameter, the call never returns
`PKCS5_DERIVED_KEY_TOO_LONG`: the guard `dkLen > 4294967295` cannot hold. -/
theorem claim_C9 (prf : PRF) (P S : List Byte) (c dkLen : Nat)
    (DK0 : Nat → Byte) (hd : dkLen < 2 ^ 32) :
    (gnutls_pkcs5_pbkdf2 prf P S c dkLen DK0).res ≠
      .PKCS5_DERIVED_KEY_TOO_LONG :=
  res_ne_too_long prf P S c dkLen DK0 (by omega)

theorem claim_C9_witness :
    (gnutls_pkcs5_pbkdf2 wPRF [] [] 0 0 (fun _ => 0)).res ≠
      .PKCS5_DERIVED_KEY_TOO_LONG :=
  claim_C9 wPRF [] [] 0 0 (fun _ => 0) (by norm_num)

/-- C4: evaluation of the code at a failing input. With a PRF whose keying
step fails (`gcry_md_setkey` returns nonzero), the call opens a keyed-hash
context, returns `PKCS5_INVALID_PRF` from inside the loop, and never reaches
`gcry_md_close`: the context is NOT released on this exit path, contradicting
the claim that it is released on every exit. -/
theorem claim_C4_bug :
    (gnutls_pkcs5_pbkdf2 c4prf [] [] 1 1 (fun _ => 0)).res =
        .PKCS5_INVALID_PRF ∧
      (gnutls_pkcs5_pbkdf2 c4prf [] [] 1 1 (fun _ => 0)).opened = true ∧
      (gnutls_pkcs5_pbkdf2 c4prf [] [] 1 1 (fun _ => 0)).closed = false :=
  ⟨rfl, rfl, rfl⟩

/-- C5 (counterexample): with a PRF that computes block 1 but fails on
block 2, the call returns an error yet byte 0 of the caller's buffer has
been overwritten (42 became 7), refuting "no bytes of the output buffer
have been written" on the error path. -/
theorem claim_C5_counterexample :
    (gnutls_pkcs5_pbkdf2 c5prf [] [] 1 2 c5DK0).res ≠ .PKCS5_OK ∧
      (gnutls_pkcs5_pbkdf2 c5prf [] [] 1 2 c5DK0).DK 0 ≠ c5DK0 0 :=
  ⟨by decide, by decide⟩

/-- C5 (amended): either the call returns `PKCS5_OK` with every byte below
`outputLength` produced from a successfully computed block and nothing
beyond touched, or it returns an error, in which case the only bytes
written are those of the `m` whole blocks completed before the failure
(positions below `m * hLen`, with `m * hLen ≤ outputLength`); every
position at or above `m * hLen` is unmodified. -/
theorem claim_C5_amended (prf : PRF) (P S : List Byte) (c dkLen : Nat)
    (DK0 : Nat → Byte) :
    ((gnutls_pkcs5_pbkdf2 prf P S c dkLen DK0).res = .PKCS5_OK →
      (∀ j, j < dkLen → ∃ T,
          pbkdf2Block prf P S c (j / prf.hLen + 1) = .ok T ∧
          (gnutls_pkcs5_pbkdf2 prf P S c dkLen DK0).DK j =
            T.getD (j % prf.hLen) 0) ∧
      (∀ j, dkLen ≤ j →
        (gnutls_pkcs5_pbkdf2 prf P S c dkLen DK0).DK j = DK0 j)) ∧
    ((gnutls_pkcs5_pbkdf2 prf P S c dkLen DK0).res ≠ .PKCS5_OK →
      ∃ m, m * prf.hLen ≤ dkLen ∧
        (∀ j, j < m * prf.hLen → ∃ T,
            pbkdf2Block prf P S c (j / prf.hLen + 1) = .ok T ∧
            (gnutls_pkcs5_pbkdf2 prf P S c dkLen DK0).DK j =
              T.getD (j % prf.hLen) 0) ∧
        (∀ j, m * prf.hLen ≤ j →
          (gnutls_pkcs5_pbkdf2 prf P S c dkLen DK0).DK j = DK0 j)) :=
  pbkdf2_partial_cases prf P S c dkLen DK0

theorem claim_C5_amended_witness :
    ∃ m, m * c5prf.hLen ≤ 2 ∧
      (∀ j, j < m * c5prf.hLen → ∃ T,
          pbkdf2Block c5prf [] [] 1 (j / c5prf.hLen + 1) = .ok T ∧
          (gnutls_pkcs5_pbkdf2 c5prf [] [] 1 2 c5DK0).DK j =
            T.getD (j % c5prf.hLen) 0) ∧
      (∀ j, m * c5prf.hLen ≤ j →
        (gnutls_pkcs5_pbkdf2 c5prf [] [] 1 2 c5DK0).DK j = c5DK0 j) :=
  (claim_C5_amended c5prf [] [] 1 2 c5DK0).2 (by decide)

/-- C6: the block count is `⌈dkLen / hLen⌉`, the remainder `r` makes
`(l-1)*hLen + r = dkLen`, each non-final block `i < l` contributes `hLen`
bytes at offset `(i-1)*hLen`, the final block contributes only its first
`r` bytes, and nothing at or beyond offset `dkLen` is written — so the last
`hLen - r` bytes of the final block value never appear in the output. -/
theorem claim_C6 (prf : PRF) (P S : List Byte) (f : List Byte → List Byte)
    (c dkLen : Nat) (DK0 : Nat → Byte) (hAll : AllOk prf P S f)
    (hH1 : 1 ≤ prf.hLen) (hH2 : prf.hLen ≤ MAX_PRF_BLOCK_LEN)
    (hc : 1 ≤ c) (hd1 : 1 ≤ dkLen) (hd2 : dkLen ≤ 4294967295) :
    blockCount dkLen prf.hLen = (dkLen + prf.hLen - 1) / prf.hLen ∧
      (blockCount dkLen prf.hLen - 1) * prf.hLen +
          (dkLen - (blockCount dkLen prf.hLen - 1) * prf.hLen) = dkLen ∧
      (∀ i k, 1 ≤ i → i < blockCount dkLen prf.hLen → k < prf.hLen →
        (gnutls_pkcs5_pbkdf2 prf P S c dkLen DK0).DK ((i - 1) * prf.hLen + k) =
          (specT f S prf.hLen i c).getD k 0) ∧
      (∀ k, k < dkLen - (blockCount dkLen prf.hLen - 1) * prf.hLen →
        (gnutls_pkcs5_pbkdf2 prf P S c dkLen DK0).DK
            ((blockCount dkLen prf.hLen - 1) * prf.hLen + k) =
          (specT f S prf.hLen (blockCount dkLen prf.hLen) c).getD k 0) ∧
      (∀ j, dkLen ≤ j →
        (gnutls_pkcs5_pbkdf2 prf P S c dkLen DK0).DK j = DK0 j) := by
  obtain ⟨-, hbytes, hpres, -, -⟩ :=
    pbkdf2_ok_spec prf P S f hAll c dkLen DK0 hH1 hH2 hc hd1 hd2
  have hceil := blockCount_eq_ceil dkLen prf.hLen hH1
  obtain ⟨l, hl0⟩ : ∃ l, blockCount dkLen prf.hLen = l := ⟨_, rfl⟩
  obtain ⟨hl1, hlb1, hlb2⟩ := blockCount_bounds dkLen prf.hLen hd1 hH1
  rw [hl0] at hceil hl1 hlb1 hlb2 ⊢
  have e2 : (l - 1) * prf.hLen + prf.hLen = l * prf.hLen := by
    rw [show (l - 1) * prf.hLen + prf.hLen = (l - 1 + 1) * prf.hLen from
      (Nat.succ_mul _ _).symm, show l - 1 + 1 = l from by omega]
  refine ⟨hceil, by omega, ?_, ?_, hpres⟩
  · intro i k h1i h2i hk
    have e1 : (i - 1) * prf.hLen + prf.hLen = i * prf.hLen := by
      rw [show (i - 1) * prf.hLen + prf.hLen = (i - 1 + 1) * prf.hLen from
        (Nat.succ_mul _ _).symm, show i - 1 + 1 = i from by omega]
    have e5 : i * prf.hLen ≤ (l - 1) * prf.hLen :=
      Nat.mul_le_mul_right _ (by omega)
    have hjlt : (i - 1) * prf.hLen + k < dkLen := by omega
    have := hbytes ((i - 1) * prf.hLen + k) hjlt
    obtain ⟨hdiv, hmod⟩ := div_mod_block prf.hLen i ((i - 1) * prf.hLen + k)
      h1i (by omega) (by omega)
    rw [hdiv, hmod, show i - 1 + 1 = i from by omega] at this
    rw [this, show (i - 1) * prf.hLen + k - (i - 1) * prf.hLen = k from by omega]
  · intro k hk
    have hjlt : (l - 1) * prf.hLen + k < dkLen := by omega
    have := hbytes ((l - 1) * prf.hLen + k) hjlt
    obtain ⟨hdiv, hmod⟩ := div_mod_block prf.hLen l ((l - 1) * prf.hLen + k)
      (by omega) (by omega) (by omega)
    rw [hdiv, hmod, show l - 1 + 1 = l from by omega] at this
    rw [this, show (l - 1) * prf.hLen + k - (l - 1) * prf.hLen = k from by omega]

theorem claim_C6_witness :
    blockCount 5 wPRF.hLen = (5 + wPRF.hLen - 1) / wPRF.hLen ∧
      (blockCount 5 wPRF.hLen - 1) * wPRF.hLen +
          (5 - (blockCount 5 wPRF.hLen - 1) * wPRF.hLen) = 5 ∧
      (∀ i k, 1 ≤ i → i < blockCount 5 wPRF.hLen → k < wPRF.hLen →
        (gnutls_pkcs5_pbkdf2 wPRF [3] [5] 2 5 (fun _ => 0)).DK
            ((i - 1) * wPRF.hLen + k) =
          (specT wf [5] wPRF.hLen i 2).getD k 0) ∧
      (∀ k, k < 5 - (blockCount 5 wPRF.hLen - 1) * wPRF.hLen →
        (gnutls_pkcs5_pbkdf2 wPRF [3] [5] 2 5 (fun _ => 0)).DK
            ((blockCount 5 wPRF.hLen - 1) * wPRF.hLen + k) =
          (specT wf [5] wPRF.hLen (blockCount 5 wPRF.hLen) 2).getD k 0) ∧
      (∀ j, 5 ≤ j →
        (gnutls_pkcs5_pbkdf2 wPRF [3] [5] 2 5 (fun _ => 0)).DK j =
          (fun _ => 0) j) :=
  claim_C6 wPRF [3] [5] wf 2 5 (fun _ => 0)
    ⟨rfl, rfl, rfl, fun _ => rfl, fun _ => rfl⟩
    (by decide) (by decide) (by decide) (by decide) (by decide)

/-- C7: for a fixed PRF, password, salt and iteration count, two successful
derivations with requested lengths `dkLen1 < dkLen2` (even into different
initial buffers) agree on the first `dkLen1` bytes: each block depends only
on its own index. -/
theorem claim_C7 (prf : PRF) (P S : List Byte) (f : List Byte → List Byte)
    (c dkLen1 dkLen2 : Nat) (DK0a DK0b : Nat → Byte) (hAll : AllOk prf P S f)
    (hH1 : 1 ≤ prf.hLen) (hH2 : prf.hLen ≤ MAX_PRF_BLOCK_LEN) (hc : 1 ≤ c)
    (hd1 : 1 ≤ dkLen1) (hlt : dkLen1 < dkLen2) (hd2 : dkLen2 ≤ 4294967295) :
    (gnutls_pkcs5_pbkdf2 prf P S c dkLen1 DK0a).res = .PKCS5_OK ∧
      (gnutls_pkcs5_pbkdf2 prf P S c dkLen2 DK0b).res = .PKCS5_OK ∧
      ∀ j, j < dkLen1 →
        (gnutls_pkcs5_pbkdf2 prf P S c dkLen1 DK0a).DK j =
          (gnutls_pkcs5_pbkdf2 prf P S c dkLen2 DK0b).DK j := by
  obtain ⟨r1, b1, -, -, -⟩ :=
    pbkdf2_ok_spec prf P S f hAll c dkLen1 DK0a hH1 hH2 hc hd1 (by omega)
  obtain ⟨r2, b2, -, -, -⟩ :=
    pbkdf2_ok_spec prf P S f hAll c dkLen2 DK0b hH1 hH2 hc (by omega) hd2
  refine ⟨r1, r2, fun j hj => ?_⟩
  rw [b1 j hj, b2 j (by omega)]

theorem claim_C7_witness :
    (gnutls_pkcs5_pbkdf2 wPRF [3] [5] 2 3 (fun _ => 0)).res = .PKCS5_OK ∧
      (gnutls_pkcs5_pbkdf2 wPRF [3] [5] 2 5 (fun _ => 1)).res = .PKCS5_OK ∧
      ∀ j, j < 3 →
        (gnutls_pkcs5_pbkdf2 wPRF [3] [5] 2 3 (fun _ => 0)).DK j =
          (gnutls_pkcs5_pbkdf2 wPRF [3] [5] 2 5 (fun _ => 1)).DK j :=
  claim_C7 wPRF [3] [5] wf 2 3 5 (fun _ => 0) (fun _ => 1)
    ⟨rfl, rfl, rfl, fun _ => rfl, fun _ => rfl⟩
    (by decide) (by decide) (by decide) (by decide) (by decide) (by decide)

/-- C8: the call is deterministic — it is a pure function of its inputs, and
two PRF providers that agree as functions (same digest length, same
open/keying/allocation outcomes, same digests) produce identical results:
the same output bytes and the same return code. -/
theorem claim_C8 (prf1 prf2 : PRF) (P S : List Byte) (c dkLen : Nat)
    (DK0 : Nat → Byte) (hh : prf1.hLen = prf2.hLen)
    (ho : prf1.openOk = prf2.openOk)
    (hs : ∀ k, prf1.setkeyOk k = prf2.setkeyOk k)
    (ha : ∀ n, prf1.allocaOk n = prf2.allocaOk n)
    (hd : ∀ k d, prf1.digest k d = prf2.digest k d) :
    gnutls_pkcs5_pbkdf2 prf1 P S c dkLen DK0 =
      gnutls_pkcs5_pbkdf2 prf2 P S c dkLen DK0 := by
  have heq : prf1 = prf2 := by
    cases prf1
    cases prf2
    simp only [PRF.mk.injEq]
    exact ⟨hh, ho, funext hs, funext ha,
      funext fun k => funext fun d => hd k d⟩
  rw [heq]

theorem claim_C8_witness :
    gnutls_pkcs5_pbkdf2 wPRF [1] [2] 2 5 (fun _ => 0) =
      gnutls_pkcs5_pbkdf2 wPRF [1] [2] 2 5 (fun _ => 0) :=
  claim_C8 wPRF wPRF [1] [2] 2 5 (fun _ => 0) rfl rfl
    (fun _ => rfl) (fun _ => rfl) (fun _ _ => rfl)

/-- C10: on every execution, writes to the caller's buffer are confined to
offsets `0 .. dkLen - 1`: every position at or beyond `dkLen` still holds
its initial content afterwards (the password and salt, being immutable
values of the embedding, are never modified). -/
theorem claim_C10 (prf : PRF) (P S : List Byte) (c dkLen : Nat)
    (DK0 : Nat → Byte) (j : Nat) (hj : dkLen ≤ j) :
    (gnutls_pkcs5_pbkdf2 prf P S c dkLen DK0).DK j = DK0 j := by
  by_cases h : (gnutls_pkcs5_pbkdf2 prf P S c dkLen DK0).res = .PKCS5_OK
  · exact ((pbkdf2_partial_cases prf P S c dkLen DK0).1 h).2 j hj
  · obtain ⟨m, hm, -, hout⟩ := (pbkdf2_partial_cases prf P S c dkLen DK0).2 h
    exact hout j (by omega)

theorem claim_C10_witness :
    (gnutls_pkcs5_pbkdf2 wPRF [1] [2] 2 5 (fun _ => 9)).DK 7 = 9 :=
  claim_C10 wPRF [1] [2] 2 5 (fun _ => 9) 7 (by omega)

end Pkcs5
